import Mathlib

/-!
Formal model of the INFO901 distributed-middleware project: Lamport clocks,
token-ring critical section, per-process mailbox, central message
distributor and group barrier.  Each Python method of `Com.py`,
`Mailbox.py` and `MessageDistributor.py` that the specification talks
about is embedded as a pure Lean function (state passing replaces field
mutation; the value returned by the Python method is paired with the
updated state), and the specification's properties are proved about
those functions.
-/

namespace Info901

/-- `CriticalSectionState` enum from CriticalSectionState.py. -/
inductive CriticalSectionState
  | IDLE
  | HAS_TOKEN
  | IN_CS
deriving DecidableEq

/-- The fields of a `Com` instance (Com.py `__init__`) that the clock and
critical-section methods read or write.  `assignedCount` is the value
`ProcessIDManager.get_assigned_count()` would return (the number of
registered processes), read by `_get_total_processes` when
`total_processes is None`.  The Lamport clock is an `Int` (Python ints);
it starts at 0 and only grows. -/
structure ComState where
  processId : Nat
  totalProcesses : Option Nat
  assignedCount : Nat
  lamportClock : Int
  csState : CriticalSectionState
  hasToken : Bool
  wantsCs : Bool
deriving DecidableEq

/-- `Com.incclock`: increments the Lamport clock and returns the new value. -/
def incclock (s : ComState) : ComState × Int :=
  ({ s with lamportClock := s.lamportClock + 1 }, s.lamportClock + 1)

/-- `Com.getclock`. -/
def getclock (s : ComState) : Int :=
  s.lamportClock

/-- `Com.update_clock_on_receive`: sets the clock to
`max(clock, received_timestamp) + 1` and returns the pair
`(old_clock, new_clock)`. -/
def update_clock_on_receive (s : ComState) (receivedTimestamp : Int) :
    ComState × Int × Int :=
  let newClock := max s.lamportClock receivedTimestamp + 1
  ({ s with lamportClock := newClock }, s.lamportClock, newClock)

/-- The three kinds of bus messages the middleware publishes
(BroadcastMessage.py, MessageTo.py, CriticalSectionMessage.py), all
carrying a Lamport timestamp (LamportMessage.py).  The descriptive
payload string a `TokenMessage` builds from the two ids is determined by
them and is omitted.  The Python field `to` of `MessageTo` is spelled
`toId` because `to` is reserved in Lean. -/
inductive BusMessage
  | broadcastMsg (timestamp : Int) (payload : String)
  | messageTo (timestamp : Int) (payload : String) (toId : Nat)
  | tokenMsg (timestamp : Int) (fromProcessId : Nat) (toProcessId : Nat)
deriving DecidableEq

/-- `Com._get_total_processes`: the configured total when given, else the
number of ids handed out by the `ProcessIDManager` singleton. -/
def get_total_processes (s : ComState) : Nat :=
  match s.totalProcesses with
  | some n => n
  | none => s.assignedCount

/-- `Com._pass_token`: computes the successor on the ring, increments the
clock, drops the token, goes `IDLE` and posts a `TokenMessage` on the
bus.  The posted message is returned alongside the new state. -/
def pass_token (s : ComState) : ComState × BusMessage :=
  let totalProcs := get_total_processes s
  let nextProcessId := (s.processId + 1) % totalProcs
  let r := incclock s
  let s2 := { r.1 with hasToken := false, csState := .IDLE }
  (s2, .tokenMsg r.2 s.processId nextProcessId)

/-- `Com.releaseSC`: returns immediately unless the state is `IN_CS`;
otherwise clears `wants_cs` and forwards the token via `_pass_token`.
The list collects the messages posted on the bus during the call. -/
def releaseSC (s : ComState) : ComState × List BusMessage :=
  if s.csState ≠ .IN_CS then (s, [])
  else
    let s1 := { s with wantsCs := false }
    let r := pass_token s1
    (r.1, [r.2])

/-- `Com.receive_token`: updates the clock from the token's timestamp,
records possession of the token, moves to `HAS_TOKEN` and returns
whether the token should be forwarded at once (`not self.wants_cs`). -/
def receive_token (s : ComState) (fromProcessId : Nat) (timestamp : Int) :
    ComState × Bool :=
  let r := update_clock_on_receive s timestamp
  let s2 := { r.1 with hasToken := true, csState := .HAS_TOKEN }
  (s2, !s2.wantsCs)

/-- C3: for every state whose clock `c` is `≥ 0` and every received
timestamp `ts`, `update_clock_on_receive` sets the clock to
`max c ts + 1`, returns the pair `(c, max c ts + 1)`, and the new clock
is strictly greater than both `c` and `ts`. -/
theorem c3_update_clock_on_receive (s : ComState) (ts : Int)
    (hc : 0 ≤ s.lamportClock) :
    update_clock_on_receive s ts =
      ({ s with lamportClock := max s.lamportClock ts + 1 },
        s.lamportClock, max s.lamportClock ts + 1) ∧
    s.lamportClock < max s.lamportClock ts + 1 ∧
    ts < max s.lamportClock ts + 1 := by
  refine ⟨rfl, ?_, ?_⟩
  · exact lt_of_le_of_lt (le_max_left _ _) (lt_add_one _)
  · exact lt_of_le_of_lt (le_max_right _ _) (lt_add_one _)

/-- Witness for C3 at a concrete state with clock 4 and timestamp 7. -/
theorem c3_update_clock_on_receive_witness :
    update_clock_on_receive ⟨1, some 3, 3, 4, .IDLE, false, false⟩ 7 =
      ({ processId := 1, totalProcesses := some 3, assignedCount := 3,
         lamportClock := max 4 7 + 1, csState := .IDLE,
         hasToken := false, wantsCs := false }, 4, max 4 7 + 1) ∧
    (4 : Int) < max 4 7 + 1 ∧ (7 : Int) < max 4 7 + 1 :=
  c3_update_clock_on_receive ⟨1, some 3, 3, 4, .IDLE, false, false⟩ 7
    (by decide)

/-- C2: in a ring of `N` registered processes (`_get_total_processes`
returns `N > 0`), `_pass_token` computes the successor
`(self + 1) mod N`, increments the Lamport clock by exactly one, sets
`has_token` to `false` and `cs_state` to `IDLE`, and posts the message
`TOKEN(self, succ)` stamped with the incremented clock. -/
theorem c2_pass_token (s : ComState) (N : Nat)
    (hN : get_total_processes s = N) (hpos : 0 < N) :
    pass_token s =
      ({ s with lamportClock := s.lamportClock + 1,
                hasToken := false, csState := .IDLE },
       .tokenMsg (s.lamportClock + 1) s.processId ((s.processId + 1) % N)) := by
  subst hN
  rfl

/-- Witness for C2: process 2 of a ring of 3 forwards to (2+1) mod 3 = 0. -/
theorem c2_pass_token_witness :
    pass_token ⟨2, some 3, 3, 10, .IN_CS, true, false⟩ =
      ({ processId := 2, totalProcesses := some 3, assignedCount := 3,
         lamportClock := 11, csState := .IDLE,
         hasToken := false, wantsCs := false },
       .tokenMsg 11 2 ((2 + 1) % 3)) :=
  c2_pass_token ⟨2, some 3, 3, 10, .IN_CS, true, false⟩ 3 rfl (by decide)

/-- C8: `releaseSC` is a no-op (state unchanged, nothing posted) from any
state other than `IN_CS`, and consequently a second `releaseSC` right
after a first one never changes the state nor posts anything, so
`releaseSC; releaseSC` is equivalent to a single `releaseSC`. -/
theorem c8_releaseSC_idempotent :
    (∀ s : ComState, s.csState ≠ .IN_CS → releaseSC s = (s, [])) ∧
    (∀ s : ComState, releaseSC (releaseSC s).1 = ((releaseSC s).1, [])) := by
  constructor
  · intro s h
    simp [releaseSC, h]
  · intro s
    by_cases h : s.csState = CriticalSectionState.IN_CS
    · simp [releaseSC, h, pass_token, incclock]
    · simp [releaseSC, h]

/-- Witness for C8: evaluating both components at concrete states; in the
first conjunct, at a state sitting in `HAS_TOKEN` (not `IN_CS`). -/
theorem c8_releaseSC_idempotent_witness :
    releaseSC ⟨0, some 3, 3, 5, .HAS_TOKEN, true, true⟩ =
      (⟨0, some 3, 3, 5, .HAS_TOKEN, true, true⟩, []) ∧
    releaseSC (releaseSC ⟨1, some 3, 3, 5, .IN_CS, true, true⟩).1 =
      ((releaseSC ⟨1, some 3, 3, 5, .IN_CS, true, true⟩).1, []) :=
  ⟨c8_releaseSC_idempotent.1 ⟨0, some 3, 3, 5, .HAS_TOKEN, true, true⟩
      (by decide),
   c8_releaseSC_idempotent.2 ⟨1, some 3, 3, 5, .IN_CS, true, true⟩⟩

/-- `MessageType` enum from Message.py. -/
inductive MessageType
  | NORMAL
  | SYNC_REQUEST
  | SYNC_ACK
  | CS_REQUEST
  | CS_REPLY
  | CS_RELEASE
  | BROADCAST
  | BARRIER
deriving DecidableEq

/-- The `Message` record of Message.py as far as the mailbox operations
read it: sender id, receiver id, content (Python `Any`, represented by a
numeric content id) and message type.  The wall-clock `timestamp`
(`time.time()`) and the `message_id` string derived from it are
real-time values and are omitted; no embedded operation reads them. -/
structure MbMessage where
  sender : Int
  receiver : Int
  content : Nat
  msgType : MessageType
deriving DecidableEq

/-- `Mailbox.putMessage`: appends a message to the FIFO queue (and
signals the condition). -/
def putMessage (q : List MbMessage) (message : MbMessage) : List MbMessage :=
  q ++ [message]

/-- `Mailbox.getMsg`: removes and returns the head message, or returns
`None` leaving the (empty) queue unchanged. -/
def getMsg : List MbMessage → Option MbMessage × List MbMessage
  | [] => (none, [])
  | m :: rest => (some m, rest)

/-- `Mailbox.getMessage`: alias for `getMsg`. -/
def getMessage (q : List MbMessage) : Option MbMessage × List MbMessage :=
  getMsg q

/-- `Mailbox.peekMessage`: head without removal. -/
def peekMessage : List MbMessage → Option MbMessage
  | [] => none
  | m :: _ => some m

/-- One wake-up of `self._condition.wait(timeout)` inside
`Mailbox.waitForMessage`: `wake q` is `wait` returning `True` with `q`
the queue observed after the lock is reacquired (whatever concurrent
producers deposited), `timedOut` is `wait` returning `False`. -/
inductive WaitEv
  | timedOut
  | wake (queue : List MbMessage)
deriving DecidableEq

/-- `Mailbox.waitForMessage`: pops the head once the queue is non-empty,
returns `None` as soon as a `wait` times out.  Blocking is embedded by
the trace of wake-up events; the outer `none` means the call is still
blocked when the trace runs out.  Python's `Condition.wait(None)` never
returns `False`, so a call with `timeout = None` only experiences traces
without `timedOut`; `wait(0)` times out at once, so a call with
`timeout = 0` on an empty queue experiences a trace headed by
`timedOut`. -/
def waitForMessage :
    List MbMessage → List WaitEv → Option (Option MbMessage × List MbMessage)
  | m :: rest, _ => some (some m, rest)
  | [], [] => none
  | [], WaitEv.timedOut :: _ => some (none, [])
  | [], WaitEv.wake q :: evs => waitForMessage q evs

/-- `Mailbox.getMessageFromSender`: scans the queue front to back,
deletes and returns the first message whose sender matches, else returns
`None` with the queue untouched. -/
def getMessageFromSender (senderId : Int) :
    List MbMessage → Option MbMessage × List MbMessage
  | [] => (none, [])
  | m :: rest =>
    if m.sender = senderId then (some m, rest)
    else
      let r := getMessageFromSender senderId rest
      (r.1, m :: r.2)

/-- C9: `waitForMessage` with `timeout = 0` (trace headed by an immediate
timeout) is equivalent to the non-blocking `getMsg` on every queue; with
`timeout = None` (no `timedOut` event can occur) the call never returns
the empty result, i.e. it blocks until a message arrives; and on timeout
expiry it returns the empty result — it is a total function, so no
exception is ever raised. -/
theorem c9_waitForMessage_spec :
    (∀ (q : List MbMessage) (evs : List WaitEv),
        waitForMessage q (WaitEv.timedOut :: evs) = some (getMsg q)) ∧
    (∀ (q : List MbMessage) (evs : List WaitEv)
        (r : Option MbMessage × List MbMessage),
        (∀ e ∈ evs, e ≠ WaitEv.timedOut) →
        waitForMessage q evs = some r → r.1.isSome = true) ∧
    (∀ evs : List WaitEv,
        waitForMessage [] (WaitEv.timedOut :: evs) = some (none, [])) := by
  refine ⟨?_, ?_, ?_⟩
  · intro q evs
    cases q <;> rfl
  · intro q evs r
    induction evs generalizing q with
    | nil =>
      intro hne hw
      cases q with
      | nil => simp [waitForMessage] at hw
      | cons m rest =>
        simp [waitForMessage] at hw
        simp [← hw]
    | cons e evs ih =>
      intro hne hw
      cases q with
      | cons m rest =>
        simp [waitForMessage] at hw
        simp [← hw]
      | nil =>
        cases e with
        | timedOut => exact absurd rfl (hne _ (List.mem_cons_self _ _))
        | wake q2 =>
          refine ih q2 ?_ ?_
          · intro x hx
            exact hne x (List.mem_cons_of_mem _ hx)
          · simpa [waitForMessage] using hw
  · intro evs
    rfl

/-- Sample message for the C9 witness. -/
def mbSample : MbMessage :=
  { sender := 0, receiver := 1, content := 42, msgType := .NORMAL }

/-- Witness for C9: a timed-out probe on a one-message queue behaves like
`getMsg`, and a blocking call that wakes on a deposit returns a message. -/
theorem c9_waitForMessage_spec_witness :
    waitForMessage [mbSample] [WaitEv.timedOut] = some (getMsg [mbSample]) ∧
    ((some mbSample, ([] : List MbMessage)).1.isSome = true) :=
  ⟨c9_waitForMessage_spec.1 [mbSample] [],
   c9_waitForMessage_spec.2.1 [] [WaitEv.wake [mbSample]] (some mbSample, [])
     (by decide) rfl⟩

/-- C10: `getMessageFromSender s` returns `None` and leaves the queue
unchanged when no message has sender `s`; and on any queue
`pre ++ m :: post` whose prefix `pre` has no message from `s` and where
`m.sender = s`, it removes and returns exactly `m`, leaving
`pre ++ post` in the original relative order. -/
theorem c10_getMessageFromSender_spec (senderId : Int) :
    (∀ q : List MbMessage, (∀ m ∈ q, m.sender ≠ senderId) →
        getMessageFromSender senderId q = (none, q)) ∧
    (∀ (pre : List MbMessage) (m : MbMessage) (post : List MbMessage),
        (∀ x ∈ pre, x.sender ≠ senderId) → m.sender = senderId →
        getMessageFromSender senderId (pre ++ m :: post) =
          (some m, pre ++ post)) := by
  constructor
  · intro q
    induction q with
    | nil => intro _; rfl
    | cons a rest ih =>
      intro h
      have ha : a.sender ≠ senderId := h a (List.mem_cons_self _ _)
      have hr := ih (fun m hm => h m (List.mem_cons_of_mem _ hm))
      simp [getMessageFromSender, ha, hr]
  · intro pre
    induction pre with
    | nil =>
      intro m post _ hm
      simp [getMessageFromSender, hm]
    | cons a rest ih =>
      intro m post hpre hm
      have ha : a.sender ≠ senderId := hpre a (List.mem_cons_self _ _)
      have hr := ih m post (fun x hx => hpre x (List.mem_cons_of_mem _ hx)) hm
      simp [getMessageFromSender, ha, hr]

/-- Sample messages for the C10 witness. -/
def mbFromThree : MbMessage :=
  { sender := 3, receiver := 0, content := 1, msgType := .NORMAL }

/-- Second sample message for the C10 witness. -/
def mbFromFour : MbMessage :=
  { sender := 4, receiver := 0, content := 2, msgType := .BROADCAST }

/-- Witness for C10: sender 7 is absent from a two-message queue, and the
first message from sender 4 is extracted from the middle of a queue. -/
theorem c10_getMessageFromSender_spec_witness :
    getMessageFromSender 7 [mbFromThree, mbFromFour] =
      (none, [mbFromThree, mbFromFour]) ∧
    getMessageFromSender 4 ([mbFromThree] ++ mbFromFour :: [mbFromThree]) =
      (some mbFromFour, [mbFromThree] ++ [mbFromThree]) :=
  ⟨(c10_getMessageFromSender_spec 7).1 [mbFromThree, mbFromFour] (by decide),
   (c10_getMessageFromSender_spec 4).2 [mbFromThree] mbFromFour [mbFromThree]
     (by decide) (by decide)⟩

/-- Modelled from the spec: `deposit_message`, the deposit operation
`MessageDistributor` calls on each mailbox, is not defined in
src/Mailbox.py (that file is an earlier draft whose enqueue method is
`putMessage`).  Spec §4.C describes the Mailbox contract as "deposit(m)
appends and signals the condition", so it is the FIFO append — the same
operation as `Mailbox.putMessage` — here on bus messages. -/
def deposit_message (q : List BusMessage) (message : BusMessage) :
    List BusMessage :=
  q ++ [message]

/-- The `MessageDistributor` mailbox table `{process_id: mailbox}`, each
mailbox represented by its queue, in registration order. -/
structure DistTable where
  mailboxes : List (Nat × List BusMessage)
deriving DecidableEq

/-- `destination_id in self.mailboxes`. -/
def hasMailbox (t : DistTable) (pid : Nat) : Bool :=
  t.mailboxes.any (fun e => e.1 == pid)

/-- Deposit `event` into the mailbox registered under `pid`. -/
def depositInto (t : DistTable) (pid : Nat) (event : BusMessage) : DistTable :=
  ⟨t.mailboxes.map
    (fun e => if e.1 == pid then (e.1, deposit_message e.2 event) else e)⟩

/-- Observable outcome of a distributor handler on one event:
`delivered` (deposited, table updated), `droppedWarning` (a warning was
printed and the handler returned, table unchanged), or
`assertionFailure` (the handler failed an assertion). -/
inductive DistOutcome
  | delivered (t : DistTable)
  | droppedWarning (t : DistTable)
  | assertionFailure
deriving DecidableEq

/-- `MessageDistributor.distribute_broadcast`: snapshots the table and
deposits the event into every registered mailbox, with no exclusion of
any id (a `BroadcastMessage` carries no sender field, so the sender's
own registered mailbox receives it like every other). -/
def distribute_broadcast (t : DistTable) (event : BusMessage) : DistTable :=
  ⟨t.mailboxes.map (fun e => (e.1, deposit_message e.2 event))⟩

/-- `MessageDistributor.distribute_directed_message`: deposits into the
destination's mailbox when registered, else prints a warning and
returns. -/
def distribute_directed_message (t : DistTable) (timestamp : Int)
    (payload : String) (destinationId : Nat) : DistOutcome :=
  if hasMailbox t destinationId then
    .delivered (depositInto t destinationId
      (.messageTo timestamp payload destinationId))
  else
    .droppedWarning t

/-- `MessageDistributor.distribute_token_message`: deposits the token
into the recipient's mailbox when registered, else prints a warning and
returns — the same else-branch shape as the directed handler, with no
assertion on any path. -/
def distribute_token_message (t : DistTable) (timestamp : Int)
    (fromProcessId toProcessId : Nat) : DistOutcome :=
  if hasMailbox t toProcessId then
    .delivered (depositInto t toProcessId
      (.tokenMsg timestamp fromProcessId toProcessId))
  else
    .droppedWarning t

/-- C5 counterexample: a token addressed to the unregistered id 1 on an
empty table is dropped with a logged warning and the handler continues;
it does not fail an assertion, contrary to the claim. -/
theorem c5_token_assert_counterexample :
    distribute_token_message ⟨[]⟩ 1 0 1 = .droppedWarning ⟨[]⟩ ∧
    distribute_token_message ⟨[]⟩ 1 0 1 ≠ DistOutcome.assertionFailure :=
  ⟨rfl, by decide⟩

/-- C5 amended: when the recipient id of a TOKEN message is not
registered, the distributor drops the token with only a logged warning
and continues, exactly like a DIRECTED message to an unregistered id; no
assertion or fatal failure occurs on either path. -/
theorem c5_token_drop_amended (t : DistTable) (timestamp : Int)
    (fromProcessId toProcessId : Nat) (payload : String)
    (h : hasMailbox t toProcessId = false) :
    distribute_token_message t timestamp fromProcessId toProcessId =
      .droppedWarning t ∧
    distribute_directed_message t timestamp payload toProcessId =
      .droppedWarning t := by
  simp [distribute_token_message, distribute_directed_message, h]

/-- Witness for the amended C5: id 5 is not registered in a table holding
only mailbox 0. -/
theorem c5_token_drop_amended_witness :
    distribute_token_message ⟨[(0, [])]⟩ 2 0 5 = .droppedWarning ⟨[(0, [])]⟩ ∧
    distribute_directed_message ⟨[(0, [])]⟩ 2 "x" 5 =
      .droppedWarning ⟨[(0, [])]⟩ :=
  c5_token_drop_amended ⟨[(0, [])]⟩ 2 0 5 "x" (by decide)

/-- C6: for every broadcast event and every mailbox `(pid, q)` registered
in the snapshotted table — the sending process's own mailbox included,
since no id is excluded — `distribute_broadcast` deposits the event at
the tail of that mailbox, and the set of registered mailboxes is
unchanged in size. -/
theorem c6_distribute_broadcast (t : DistTable) (event : BusMessage)
    (pid : Nat) (q : List BusMessage)
    (hmem : (pid, q) ∈ t.mailboxes) :
    (pid, deposit_message q event) ∈ (distribute_broadcast t event).mailboxes ∧
    deposit_message q event = q ++ [event] ∧
    (distribute_broadcast t event).mailboxes.length =
      t.mailboxes.length := by
  refine ⟨?_, rfl, ?_⟩
  · have h := List.mem_map_of_mem
      (fun e : Nat × List BusMessage => (e.1, deposit_message e.2 event)) hmem
    simpa [distribute_broadcast] using h
  · simp [distribute_broadcast]

/-- Table for the C6 witness: mailboxes 0 and 1, both empty. -/
def c6Table : DistTable := ⟨[(0, []), (1, [])]⟩

/-- Event for the C6 witness: a broadcast stamped 1 (sent by process 0,
whose own mailbox 0 is registered). -/
def c6Event : BusMessage := .broadcastMsg 1 "a"

/-- Witness for C6: mailbox 0 — the sender's own — receives the
broadcast. -/
theorem c6_distribute_broadcast_witness :
    ((0 : Nat), deposit_message [] c6Event) ∈
      (distribute_broadcast c6Table c6Event).mailboxes ∧
    deposit_message [] c6Event = [] ++ [c6Event] ∧
    (distribute_broadcast c6Table c6Event).mailboxes.length =
      c6Table.mailboxes.length :=
  c6_distribute_broadcast c6Table c6Event 0 [] (by decide)

/-- The class-level synchronisation state of `Com`: `_sync_counter` and
`_sync_total_processes`, both mutated only under `_sync_condition`. -/
structure SyncState where
  syncCounter : Nat
  syncTotal : Nat
deriving DecidableEq

/-- `Com.initialize_sync(total)`: stores the total and resets the
counter to 0. -/
def initialize_sync (totalProcesses : Nat) : SyncState :=
  { syncCounter := 0, syncTotal := totalProcesses }

/-- The lock-protected block of `Com.synchronize` as executed by one
arriving caller: increments the counter; a caller that reaches the total
resets the counter to 0 and notifies all waiters in the same atomic
block (returned flag `true`); every earlier caller waits (flag `false`).
Woken waiters return without touching the state, so any interleaving of
`synchronize` calls is a sequence of these atomic blocks. -/
def synchronize_arrive (s : SyncState) : SyncState × Bool :=
  let c := s.syncCounter + 1
  if s.syncTotal ≤ c then ({ s with syncCounter := 0 }, true)
  else ({ s with syncCounter := c }, false)

/-- Barrier states reachable from `initialize_sync total` under any
sequence of `synchronize` calls. -/
inductive SyncReachable (totalProcesses : Nat) : SyncState → Prop
  | init : SyncReachable totalProcesses (initialize_sync totalProcesses)
  | arrive {s : SyncState} : SyncReachable totalProcesses s →
      SyncReachable totalProcesses (synchronize_arrive s).1

/-- C7: for every participant count `N ≥ 1` and every interleaving of
`synchronize` calls, the counter satisfies `0 ≤ arrived < N` in every
reachable state (i.e. outside the release instants, which happen inside
the atomic block); the `N`-th caller resets the counter to 0 in the same
atomic block as the notify, landing exactly on the initial barrier state
— so the barrier is reusable — and every earlier caller just increments
the counter and waits. -/
theorem c7_barrier_invariant (totalProcesses : Nat) (htot : 0 < totalProcesses)
    (s : SyncState) (h : SyncReachable totalProcesses s) :
    (s.syncCounter < s.syncTotal ∧ s.syncTotal = totalProcesses) ∧
    (s.syncCounter + 1 = totalProcesses →
      synchronize_arrive s = (initialize_sync totalProcesses, true)) ∧
    (s.syncCounter + 1 < totalProcesses →
      synchronize_arrive s =
        ({ s with syncCounter := s.syncCounter + 1 }, false)) := by
  have harr : ∀ u : SyncState, synchronize_arrive u =
      if u.syncTotal ≤ u.syncCounter + 1 then ({ u with syncCounter := 0 }, true)
      else ({ u with syncCounter := u.syncCounter + 1 }, false) :=
    fun _ => rfl
  have key : ∀ t : SyncState, SyncReachable totalProcesses t →
      t.syncCounter < t.syncTotal ∧ t.syncTotal = totalProcesses := by
    intro t ht
    induction ht with
    | init => exact ⟨htot, rfl⟩
    | @arrive u hu ih =>
      obtain ⟨h1, h2⟩ := ih
      rw [harr u]
      rcases le_or_lt u.syncTotal (u.syncCounter + 1) with hle | hlt
      · rw [if_pos hle]
        refine ⟨?_, h2⟩
        show (0 : Nat) < u.syncTotal
        omega
      · rw [if_neg (by omega)]
        exact ⟨hlt, h2⟩
  obtain ⟨h1, h2⟩ := key s h
  refine ⟨⟨h1, h2⟩, ?_, ?_⟩
  · intro hN
    rw [harr s, if_pos (by omega)]
    cases s with
    | mk c t =>
      have ht : t = totalProcesses := h2
      subst ht
      rfl
  · intro hlt
    rw [harr s, if_neg (by omega)]

/-- Witness for C7 at `N = 2`, in the state reached after one caller has
arrived (counter 1): the invariant holds and the second caller releases
the barrier back to its initial state. -/
theorem c7_barrier_invariant_witness :
    (((synchronize_arrive (initialize_sync 2)).1.syncCounter <
        (synchronize_arrive (initialize_sync 2)).1.syncTotal ∧
      (synchronize_arrive (initialize_sync 2)).1.syncTotal = 2) ∧
    ((synchronize_arrive (initialize_sync 2)).1.syncCounter + 1 = 2 →
      synchronize_arrive (synchronize_arrive (initialize_sync 2)).1 =
        (initialize_sync 2, true)) ∧
    ((synchronize_arrive (initialize_sync 2)).1.syncCounter + 1 < 2 →
      synchronize_arrive (synchronize_arrive (initialize_sync 2)).1 =
        ({ (synchronize_arrive (initialize_sync 2)).1 with
            syncCounter :=
              (synchronize_arrive (initialize_sync 2)).1.syncCounter + 1 },
          false))) :=
  c7_barrier_invariant 2 (by decide) _
    (SyncReachable.arrive SyncReachable.init)

/-- A Python attribute holding either a plain value or a callable.  The
`process_alive` attribute of `Com` is initialised to the boolean `True`
(`self.process_alive = True`) yet invoked as `self.process_alive()` in
`requestSC`. -/
inductive PyAttr
  | boolAttr (b : Bool)
  | callableAttr (f : Unit → Bool)

/-- The Python runtime error the embedding distinguishes. -/
inductive PyError
  | typeError
deriving DecidableEq

/-- Evaluating the call `attr()`: calling a bool raises `TypeError`,
calling a callable returns its result. -/
def callAttr : PyAttr → Except PyError Bool
  | .boolAttr _ => .error .typeError
  | .callableAttr f => .ok (f ())

/-- Result of one pass of `Com.requestSC` through its wait loop:
either the thread blocks on `cs_condition.wait()` again, or the call
finishes with the final state and the returned boolean. -/
inductive RequestOutcome
  | waiting
  | finished (s : ComState) (result : Bool)

/-- One evaluation of the body of `Com.requestSC` from the point where
`cs_condition` is held: sets `wants_cs = True`, evaluates the `while`
condition `not (has_token and wants_cs and cs_state == HAS_TOKEN) and
self.process_alive()` with Python's short-circuiting, and either waits,
or falls through to the `if not self.process_alive()` re-check and
finishes — aborting (`False`, `wants_cs` cleared) or entering the
critical section (`True`).  No bus message is posted on any path. -/
def requestSC (processAlive : PyAttr) (s : ComState) :
    Except PyError RequestOutcome :=
  let s0 := { s with wantsCs := true }
  if s0.hasToken = true ∧ s0.wantsCs = true ∧ s0.csState = .HAS_TOKEN then
    match callAttr processAlive with
    | .error e => .error e
    | .ok a =>
      if a then .ok (.finished { s0 with csState := .IN_CS } true)
      else .ok (.finished { s0 with wantsCs := false } false)
  else
    match callAttr processAlive with
    | .error e => .error e
    | .ok a =>
      if a then .ok .waiting
      else
        match callAttr processAlive with
        | .error e => .error e
        | .ok a2 =>
          if a2 then .ok (.finished { s0 with csState := .IN_CS } true)
          else .ok (.finished { s0 with wantsCs := false } false)

/-- C4 (code defect): `Com.__init__` stores the boolean `True` in
`process_alive` and nothing in the repository ever rebinds it to a
callable, yet `requestSC` calls it; so on every state, and whichever
boolean the attribute holds, `requestSC` raises `TypeError` instead of
returning `false` with `wants_cs` cleared as the claim describes.  (No
token is forwarded either way: `requestSC` posts nothing on any path.) -/
theorem c4_requestSC_alive_typeerror (s : ComState) (b : Bool) :
    requestSC (.boolAttr b) s = .error .typeError := by
  simp [requestSC, callAttr]

/-- Per-process state in the system model of the token ring: the fields
of one process's `Com` that `requestSC` / `releaseSC` / `receive_token`
read or write, plus the `alive` flag `requestSC` consults (the boolean
the `process_alive` reference is intended to report). -/
structure RingProc where
  hasToken : Bool
  csState : CriticalSectionState
  wantsCs : Bool
  alive : Bool
  clock : Int
deriving DecidableEq

/-- A `TokenMessage` posted on the bus and not yet received. -/
structure TokenInFlight (n : Nat) where
  timestamp : Int
  fromId : Fin n
  toId : Fin n
deriving DecidableEq

/-- Global state of the `n`-process system. -/
structure RingState (n : Nat) where
  procs : Fin n → RingProc
  inflight : List (TokenInFlight n)

/-- Per-process initial state from `Com.__init__`: clock 0, nobody wants
the critical section, everybody alive; process 0 holds the token in
state `HAS_TOKEN`, everyone else is `IDLE` without it. -/
def initProc (i : Nat) : RingProc :=
  if i = 0 then
    { hasToken := true, csState := .HAS_TOKEN, wantsCs := false,
      alive := true, clock := 0 }
  else
    { hasToken := false, csState := .IDLE, wantsCs := false,
      alive := true, clock := 0 }

/-- System initial state: only process 0 holds the token, no token in
flight. -/
def ringInit (n : Nat) : RingState n :=
  { procs := fun i => initProc i.val, inflight := [] }

/-- Replace process `i`'s fields. -/
def updProc {n : Nat} (s : RingState n) (i : Fin n) (p : RingProc) :
    RingState n :=
  { s with procs := fun j => if j = i then p else s.procs j }

/-- `(self.process_id + 1) % total_procs` on a ring of `n` processes. -/
def ringSucc {n : Nat} (i : Fin n) : Fin n :=
  ⟨(i.val + 1) % n, Nat.mod_lt _ i.pos⟩

/-- The state after `Com.releaseSC` runs from `IN_CS` at process `i`:
`wants_cs` cleared, then `_pass_token` — clock incremented, token
dropped, state `IDLE`, and `TOKEN(clock + 1, i, (i + 1) mod n)` posted. -/
def releaseState {n : Nat} (s : RingState n) (i : Fin n) : RingState n :=
  { procs := (updProc s i
      { s.procs i with wantsCs := false, hasToken := false,
                       csState := .IDLE,
                       clock := (s.procs i).clock + 1 }).procs,
    inflight := s.inflight ++
      [{ timestamp := (s.procs i).clock + 1, fromId := i, toId := ringSucc i }] }

/-- The state after `Com.receive_token` runs at the recipient of the
in-flight token `m`, which is consumed: clock updated by the Lamport
receive rule, token held, state `HAS_TOKEN` and the waiters notified. -/
def deliverState {n : Nat} (s : RingState n) (m : TokenInFlight n)
    (pre post : List (TokenInFlight n)) : RingState n :=
  { procs := (updProc s m.toId
      { s.procs m.toId with hasToken := true, csState := .HAS_TOKEN,
                            clock := max (s.procs m.toId).clock m.timestamp + 1 }).procs,
    inflight := pre ++ post }

/-- One atomic (lock-protected) state mutation of the system: the phases
of `requestSC` (publishing `wants_cs`; entering `IN_CS` when the wait
condition allows it; aborting when the process is stopping), `releaseSC`
from `IN_CS`, delivery of an in-flight token via `receive_token`, and a
process being stopped. -/
inductive RingStep {n : Nat} : RingState n → RingState n → Prop
  | setWants (s : RingState n) (i : Fin n) :
      RingStep s (updProc s i { s.procs i with wantsCs := true })
  | enterCS (s : RingState n) (i : Fin n)
      (htok : (s.procs i).hasToken = true)
      (hwants : (s.procs i).wantsCs = true)
      (hstate : (s.procs i).csState = .HAS_TOKEN)
      (halive : (s.procs i).alive = true) :
      RingStep s (updProc s i { s.procs i with csState := .IN_CS })
  | abortRequest (s : RingState n) (i : Fin n)
      (halive : (s.procs i).alive = false) :
      RingStep s (updProc s i { s.procs i with wantsCs := false })
  | release (s : RingState n) (i : Fin n)
      (hcs : (s.procs i).csState = .IN_CS) :
      RingStep s (releaseState s i)
  | deliver (s : RingState n) (m : TokenInFlight n)
      (pre post : List (TokenInFlight n))
      (hsplit : s.inflight = pre ++ m :: post) :
      RingStep s (deliverState s m pre post)
  | stopProc (s : RingState n) (i : Fin n) :
      RingStep s (updProc s i { s.procs i with alive := false })

/-- States reachable from the initial state by any interleaving. -/
inductive RingReachable {n : Nat} : RingState n → Prop
  | init : RingReachable (ringInit n)
  | step {s s' : RingState n} : RingReachable s → RingStep s s' →
      RingReachable s'

/-- Token conservation: token holders are unique, no holder coexists
with an in-flight token, at most one token is in flight, and a process
in the critical section holds the token. -/
def RingInv {n : Nat} (s : RingState n) : Prop :=
  (∀ i j : Fin n, (s.procs i).hasToken = true →
    (s.procs j).hasToken = true → i = j) ∧
  (s.inflight ≠ [] → ∀ i : Fin n, (s.procs i).hasToken = false) ∧
  s.inflight.length ≤ 1 ∧
  (∀ i : Fin n, (s.procs i).csState = .IN_CS → (s.procs i).hasToken = true)

theorem updProc_procs {n : Nat} (s : RingState n) (i : Fin n) (p : RingProc)
    (j : Fin n) :
    (updProc s i p).procs j = if j = i then p else s.procs j := rfl

theorem ringInv_init (n : Nat) : RingInv (ringInit n) := by
  refine ⟨?_, ?_, ?_, ?_⟩
  · intro i j hi hj
    have hi0 : i.val = 0 := by
      by_contra hne
      simp [ringInit, initProc, hne] at hi
    have hj0 : j.val = 0 := by
      by_contra hne
      simp [ringInit, initProc, hne] at hj
    exact Fin.ext (hi0.trans hj0.symm)
  · intro hne
    exact absurd rfl hne
  · simp [ringInit]
  · intro i hcs
    by_cases h0 : i.val = 0
    · simp [ringInit, initProc, h0]
    · simp [ringInit, initProc, h0] at hcs

theorem ringInv_updProc {n : Nat} {s : RingState n} (i : Fin n) (p : RingProc)
    (hinv : RingInv s)
    (htok : p.hasToken = (s.procs i).hasToken)
    (hpcs : p.csState = .IN_CS → p.hasToken = true) :
    RingInv (updProc s i p) := by
  obtain ⟨huniq, hfly, hlen, hcs⟩ := hinv
  refine ⟨?_, ?_, ?_, ?_⟩
  · intro a b ha hb
    rw [updProc_procs] at ha hb
    by_cases hai : a = i
    · by_cases hbi : b = i
      · exact hai.trans hbi.symm
      · rw [if_pos hai, htok] at ha
        rw [if_neg hbi] at hb
        exact hai.trans (huniq i b ha hb)
    · by_cases hbi : b = i
      · rw [if_neg hai] at ha
        rw [if_pos hbi, htok] at hb
        exact (huniq a i ha hb).trans hbi.symm
      · rw [if_neg hai] at ha
        rw [if_neg hbi] at hb
        exact huniq a b ha hb
  · intro hne a
    have hne' : s.inflight ≠ [] := hne
    rw [updProc_procs]
    by_cases hai : a = i
    · rw [if_pos hai, htok]
      exact hfly hne' i
    · rw [if_neg hai]
      exact hfly hne' a
  · exact hlen
  · intro a hacs
    rw [updProc_procs] at hacs ⊢
    by_cases hai : a = i
    · rw [if_pos hai] at hacs ⊢
      exact hpcs hacs
    · rw [if_neg hai] at hacs ⊢
      exact hcs a hacs

theorem releaseState_procs {n : Nat} (s : RingState n) (i : Fin n)
    (a : Fin n) :
    (releaseState s i).procs a =
      if a = i then
        { s.procs i with wantsCs := false, hasToken := false,
                         csState := .IDLE,
                         clock := (s.procs i).clock + 1 }
      else s.procs a := rfl

theorem releaseState_inflight {n : Nat} (s : RingState n) (i : Fin n) :
    (releaseState s i).inflight = s.inflight ++
      [{ timestamp := (s.procs i).clock + 1, fromId := i,
         toId := ringSucc i }] := rfl

theorem ringInv_release {n : Nat} {s : RingState n} (i : Fin n)
    (hcsi : (s.procs i).csState = .IN_CS) (hinv : RingInv s) :
    RingInv (releaseState s i) := by
  obtain ⟨huniq, hfly, hlen, hcs⟩ := hinv
  have htoki : (s.procs i).hasToken = true := hcs i hcsi
  have hemp : s.inflight = [] := by
    by_contra hne
    rw [hfly hne i] at htoki
    exact Bool.false_ne_true htoki
  refine ⟨?_, ?_, ?_, ?_⟩
  · intro a b ha hb
    rw [releaseState_procs] at ha hb
    by_cases hai : a = i
    · rw [if_pos hai] at ha
      exact absurd ha (by simp)
    · by_cases hbi : b = i
      · rw [if_pos hbi] at hb
        exact absurd hb (by simp)
      · rw [if_neg hai] at ha
        rw [if_neg hbi] at hb
        exact huniq a b ha hb
  · intro _ a
    rw [releaseState_procs]
    by_cases hai : a = i
    · rw [if_pos hai]
    · rw [if_neg hai]
      by_cases hb : (s.procs a).hasToken = true
      · exact absurd (huniq a i hb htoki) hai
      · rw [Bool.not_eq_true] at hb
        exact hb
  · rw [releaseState_inflight, hemp]
    simp
  · intro a hacs
    rw [releaseState_procs] at hacs ⊢
    by_cases hai : a = i
    · rw [if_pos hai] at hacs
      simp at hacs
    · rw [if_neg hai] at hacs ⊢
      exact hcs a hacs

theorem deliverState_procs {n : Nat} (s : RingState n) (m : TokenInFlight n)
    (pre post : List (TokenInFlight n)) (a : Fin n) :
    (deliverState s m pre post).procs a =
      if a = m.toId then
        { s.procs m.toId with hasToken := true, csState := .HAS_TOKEN,
                              clock := max (s.procs m.toId).clock m.timestamp + 1 }
      else s.procs a := rfl

theorem deliverState_inflight {n : Nat} (s : RingState n)
    (m : TokenInFlight n) (pre post : List (TokenInFlight n)) :
    (deliverState s m pre post).inflight = pre ++ post := rfl

theorem ringInv_deliver {n : Nat} {s : RingState n} (m : TokenInFlight n)
    (pre post : List (TokenInFlight n))
    (hsplit : s.inflight = pre ++ m :: post) (hinv : RingInv s) :
    RingInv (deliverState s m pre post) := by
  obtain ⟨huniq, hfly, hlen, hcs⟩ := hinv
  have hl : s.inflight.length = pre.length + post.length + 1 := by
    rw [hsplit]
    simp only [List.length_append, List.length_cons]
    omega
  rw [hl] at hlen
  have hpre : pre = [] := List.length_eq_zero.mp (by omega)
  have hpost : post = [] := List.length_eq_zero.mp (by omega)
  have hne : s.inflight ≠ [] := by
    rw [hsplit, hpre, hpost]
    simp
  have hnotok : ∀ a : Fin n, (s.procs a).hasToken = false := hfly hne
  refine ⟨?_, ?_, ?_, ?_⟩
  · intro a b ha hb
    rw [deliverState_procs] at ha hb
    by_cases hai : a = m.toId
    · by_cases hbi : b = m.toId
      · exact hai.trans hbi.symm
      · rw [if_neg hbi] at hb
        rw [hnotok b] at hb
        exact absurd hb (by simp)
    · rw [if_neg hai] at ha
      rw [hnotok a] at ha
      exact absurd ha (by simp)
  · intro hne2
    exfalso
    apply hne2
    rw [deliverState_inflight, hpre, hpost]
    rfl
  · rw [deliverState_inflight, hpre, hpost]
    simp
  · intro a hacs
    rw [deliverState_procs] at hacs ⊢
    by_cases hai : a = m.toId
    · rw [if_pos hai]
    · rw [if_neg hai] at hacs
      have := hcs a hacs
      rw [hnotok a] at this
      exact absurd this (by simp)

theorem ringInv_step {n : Nat} {s s' : RingState n} (hinv : RingInv s)
    (hstep : RingStep s s') : RingInv s' := by
  cases hstep with
  | setWants i =>
    exact ringInv_updProc i _ hinv rfl (fun h => hinv.2.2.2 i h)
  | enterCS i htok hwants hstate halive =>
    exact ringInv_updProc i _ hinv rfl (fun _ => htok)
  | abortRequest i halive =>
    exact ringInv_updProc i _ hinv rfl (fun h => hinv.2.2.2 i h)
  | release i hcsi =>
    exact ringInv_release i hcsi hinv
  | deliver m pre post hsplit =>
    exact ringInv_deliver m pre post hsplit hinv
  | stopProc i =>
    exact ringInv_updProc i _ hinv rfl (fun h => hinv.2.2.2 i h)

theorem ringInv_reachable {n : Nat} {s : RingState n}
    (h : RingReachable s) : RingInv s := by
  induction h with
  | init => exact ringInv_init n
  | step hr hs ih => exact ringInv_step ih hs

/-- C1: in every reachable state of the system of `n` processes
executing the critical-section operations (`requestSC`, `releaseSC`,
`receive_token`) in any interleaving, starting from the initial state in
which only process 0 holds the token, at most one process has
`cs_state = IN_CS`: any two processes in `IN_CS` are equal. -/
theorem c1_mutual_exclusion {n : Nat} (s : RingState n)
    (h : RingReachable s) (i j : Fin n)
    (hi : (s.procs i).csState = .IN_CS)
    (hj : (s.procs j).csState = .IN_CS) : i = j := by
  obtain ⟨huniq, _, _, hcs⟩ := ringInv_reachable h
  exact huniq i j (hcs i hi) (hcs j hj)

/-- Witness for C1: in a 2-process system, after process 0 requests the
critical section and enters it, it is the unique process in `IN_CS`. -/
theorem c1_mutual_exclusion_witness : (0 : Fin 2) = (0 : Fin 2) :=
  c1_mutual_exclusion _
    (RingReachable.step
      (RingReachable.step RingReachable.init
        (RingStep.setWants (ringInit 2) (0 : Fin 2)))
      (RingStep.enterCS _ (0 : Fin 2) rfl rfl rfl rfl))
    (0 : Fin 2) (0 : Fin 2) rfl rfl

end Info901
